import Mathlib

/-!
Verification of the Monch buffer library (src/lib/buffer.ts, src/lib/error.ts).

The TypeScript class MonchBuffer is embedded shallowly:
* the backing Uint8Array becomes a `List Nat` whose elements are kept below 256
  by applying the ECMAScript ToUint8 conversion (reduction mod 2^8) at every
  store, exactly where the source's typed-array element assignment performs it;
* JavaScript numbers that the class stores in its fields (offsets, capacities)
  are embedded as `Int`; this is exact for the integral values the operations
  produce as long as they stay below 2^53 in magnitude, which the theorems'
  inputs do;
* BigInt values (the 64-bit read/write family) are embedded as `Nat`;
* the conversion Number(bigint) used by writeUint64BE/writeUint64LE rounds to
  the nearest IEEE-754 double (ties to even); on the relevant inputs (natural
  numbers below 2^64) this is the function `jsNumber` below;
* a method that can throw becomes a function returning `Except BufferError _`
  together with the post-state; every throw in the source happens before any
  field mutation, so the error branches return the entry state.
-/

namespace Monch

/-- The five error classes of src/lib/error.ts, as a tag. -/
inductive BufferError where
  | overread
  | underread
  | overwrite
  | underwrite
  | invalidByteCount
deriving DecidableEq

/-- ECMAScript ToUint8, applied by an element assignment into a Uint8Array:
truncate (inputs here are integral) and reduce into [0, 256). -/
def toUint8 (v : Int) : Nat := (v % 256).toNat

/-- ECMAScript ToInt32 on an integral value: reduce mod 2^32 into the signed
range [-2^31, 2^31). Performed by the `~~` operator in alignByte. -/
def toInt32 (x : Int) : Int :=
  let r := x % 4294967296
  if r < 2147483648 then r else r - 4294967296

/-- Indexing `typedArray[i]` of a Uint8Array. An out-of-range index yields
undefined, which the source only ever feeds to arithmetic/bitwise operators,
where it coerces to 0. -/
def jsGet : List Nat → Nat → Nat
  | [], _ => 0
  | x :: _, 0 => x
  | _ :: xs, i + 1 => jsGet xs i

/-- Uint8Array.prototype.slice(a, b): clamp both ends into [0, length]
(negative arguments count from the end) and copy the range. -/
def jsSlice (l : List Nat) (a b : Int) : List Nat :=
  let len : Int := l.length
  let s := if a < 0 then max (len + a) 0 else min a len
  let e := if b < 0 then max (len + b) 0 else min b len
  (l.drop s.toNat).take (e - s).toNat

/-- A run of consecutive element assignments
typedArray[off] = bs0; typedArray[off+1] = bs1; ... with ToUint8 applied to
each stored value. Assignment past the end of a Uint8Array is a silent no-op,
as is List.set. -/
def storeBytes : List Nat → Nat → List Nat → List Nat
  | store, _, [] => store
  | store, off, v :: rest => storeBytes (store.set off (v % 256)) (off + 1) rest

/-- The common shape of the fixed-width write loops:
for (i = 0; i < data.length; i++) store the w-byte encoding of data[i] at
offset + i*w. -/
def writeEach (w : Nat) (enc : Nat → List Nat) : List Nat → Nat → List Nat → List Nat
  | store, _, [] => store
  | store, off, v :: rest => writeEach w enc (storeBytes store off (enc v)) (off + w) rest

/-- The w bytes typedArray[off], ..., typedArray[off+w-1]. -/
def takeWindow (store : List Nat) : Nat → Nat → List Nat
  | _, 0 => []
  | off, w + 1 => jsGet store off :: takeWindow store (off + 1) w

/-- The common shape of the fixed-width read loops:
for (i = 0; i < count; i++) decode the w bytes at offset + i*w. -/
def readEach (w : Nat) (dec : List Nat → Nat) (store : List Nat) : Nat → Nat → List Nat
  | _, 0 => []
  | off, n + 1 => dec (takeWindow store off w) :: readEach w dec store (off + w) n

/-- Fuel-driven bit length (exact for n < 2^80, far above every value here). -/
def bitLenAux : Nat → Nat → Nat
  | 0, _ => 0
  | fuel + 1, n => if n = 0 then 0 else bitLenAux fuel (n / 2) + 1

def bitLen (n : Nat) : Nat := bitLenAux 80 n

/-- ECMAScript Number(bigint) for a natural argument: round to the nearest
IEEE-754 binary64 value (53 significand bits), ties to even. Exact below
2^53; above, the excess low bits are rounded away. Used by the source's
writeUint64BE/writeUint64LE, which convert each BigInt shift result with
Number before storing it. -/
def jsNumber (n : Nat) : Nat :=
  let L := bitLen n
  if L ≤ 53 then n
  else
    let k := L - 53
    let q := n >>> k
    let r := n % 2 ^ k
    let half := 2 ^ (k - 1)
    if half < r ∨ (r = half ∧ q % 2 = 1) then (q + 1) <<< k else q <<< k

/-! ### Byte encodings and decodings of the fixed-width integer families

The decoders mirror the source's composition expressions, e.g. for 16-bit BE
temp[i] = typedArray[offset + (1 + i*2)] | (typedArray[offset + i*2] << 8),
with the window bytes in address order, plus the reduction performed by
storing the result into a Uint16Array/Uint32Array/BigUint64Array. On byte
operands (below 2^8) the JavaScript 32-bit signed `|`/`<<` arithmetic of the
16/32-bit families composes the same value as the Nat operations used here
(for the 32-bit family the intermediate signed representatives differ from
the Nat values only by multiples of 2^32, which the final ToUint32 removes).

The encoders mirror the write loops' per-byte stored values before ToUint8,
e.g. for 16-bit BE the pair (data[i] >> 8, data[i]); storeBytes applies the
mod-2^8 reduction of ToUint8. For the 32-bit family the source's `>>`
operates on the ToInt32 representative of the Uint32Array element; its result
differs from the Nat shift used here by a multiple of 2^(32-k), which for the
shift amounts 8/16/24 is a multiple of 2^8 and thus erased by ToUint8. The
64-bit encoders apply jsNumber exactly where the source applies Number to a
BigInt. -/

def dec16BE (bs : List Nat) : Nat := (jsGet bs 1 ||| (jsGet bs 0 <<< 8)) % 2 ^ 16

def dec16LE (bs : List Nat) : Nat := (jsGet bs 0 ||| (jsGet bs 1 <<< 8)) % 2 ^ 16

def dec32BE (bs : List Nat) : Nat :=
  (jsGet bs 3 ||| (jsGet bs 2 <<< 8) ||| (jsGet bs 1 <<< 16) ||| (jsGet bs 0 <<< 24)) % 2 ^ 32

def dec32LE (bs : List Nat) : Nat :=
  (jsGet bs 0 ||| (jsGet bs 1 <<< 8) ||| (jsGet bs 2 <<< 16) ||| (jsGet bs 3 <<< 24)) % 2 ^ 32

def dec64BE (bs : List Nat) : Nat :=
  (jsGet bs 7 ||| (jsGet bs 6 <<< 8) ||| (jsGet bs 5 <<< 16) ||| (jsGet bs 4 <<< 24) |||
      (jsGet bs 3 <<< 32) ||| (jsGet bs 2 <<< 40) ||| (jsGet bs 1 <<< 48) |||
      (jsGet bs 0 <<< 56)) % 2 ^ 64

def dec64LE (bs : List Nat) : Nat :=
  (jsGet bs 0 ||| (jsGet bs 1 <<< 8) ||| (jsGet bs 2 <<< 16) ||| (jsGet bs 3 <<< 24) |||
      (jsGet bs 4 <<< 32) ||| (jsGet bs 5 <<< 40) ||| (jsGet bs 6 <<< 48) |||
      (jsGet bs 7 <<< 56)) % 2 ^ 64

def enc16BE (v : Nat) : List Nat := [v >>> 8, v]

def enc16LE (v : Nat) : List Nat := [v, v >>> 8]

def enc32BE (v : Nat) : List Nat := [v >>> 24, v >>> 16, v >>> 8, v]

def enc32LE (v : Nat) : List Nat := [v, v >>> 8, v >>> 16, v >>> 24]

def enc64BE (v : Nat) : List Nat :=
  [jsNumber (v >>> 56), jsNumber (v >>> 48), jsNumber (v >>> 40), jsNumber (v >>> 32),
    jsNumber (v >>> 24), jsNumber (v >>> 16), jsNumber (v >>> 8), jsNumber v]

def enc64LE (v : Nat) : List Nat :=
  [jsNumber v, jsNumber (v >>> 8), jsNumber (v >>> 16), jsNumber (v >>> 24),
    jsNumber (v >>> 32), jsNumber (v >>> 40), jsNumber (v >>> 48), jsNumber (v >>> 56)]

/-- The state of a MonchBuffer: the four public number fields and the private
Uint8Array store. -/
structure MonchBuffer where
  byteOffset : Int
  byteCapacity : Int
  bitOffset : Int
  bitCapacity : Int
  typedArray : List Nat
deriving DecidableEq

namespace MonchBuffer

/-- refresh(): recompute both capacities from the store's length. -/
def refresh (b : MonchBuffer) : MonchBuffer :=
  { b with
    byteCapacity := (b.typedArray.length : Int)
    bitCapacity := (b.typedArray.length : Int) * 8 }

/-- The constructor: cursors start at 0, the slices are concatenated in
argument order (each element passing through ToUint8 via Uint8Array.from),
and refresh computes the capacities. -/
def new (slices : List (List Int)) : MonchBuffer :=
  refresh
    { byteOffset := 0
      byteCapacity := 0
      bitOffset := 0
      bitCapacity := 0
      typedArray := slices.flatten.map toUint8 }

/-- readBytes(offset, count): overread check, then underread check, then a
slice of the requested range. (A negative count passes the checks and yields
an empty slice, as in the source.) -/
def readBytes (b : MonchBuffer) (offset count : Int) : Except BufferError (List Nat) :=
  if b.byteCapacity < offset + count then .error .overread
  else if offset < 0 then .error .underread
  else .ok (jsSlice b.typedArray offset (offset + count))

/-- readByte(offset) = readBytes(offset, 1)[0]. -/
def readByte (b : MonchBuffer) (offset : Int) : Except BufferError Nat :=
  (readBytes b offset 1).map fun t => jsGet t 0

/-- readUint16BE(offset, count). (On a negative count that passes both
checks, the source would fail constructing the result array; the theorems
never rely on that region.) -/
def readUint16BE (b : MonchBuffer) (offset count : Int) : Except BufferError (List Nat) :=
  if b.byteCapacity < offset + count * 2 then .error .overread
  else if offset < 0 then .error .underread
  else .ok (readEach 2 dec16BE b.typedArray offset.toNat count.toNat)

/-- readUint16LE(offset, count). -/
def readUint16LE (b : MonchBuffer) (offset count : Int) : Except BufferError (List Nat) :=
  if b.byteCapacity < offset + count * 2 then .error .overread
  else if offset < 0 then .error .underread
  else .ok (readEach 2 dec16LE b.typedArray offset.toNat count.toNat)

/-- readUint32BE(offset, count). -/
def readUint32BE (b : MonchBuffer) (offset count : Int) : Except BufferError (List Nat) :=
  if b.byteCapacity < offset + count * 4 then .error .overread
  else if offset < 0 then .error .underread
  else .ok (readEach 4 dec32BE b.typedArray offset.toNat count.toNat)

/-- readUint32LE(offset, count). -/
def readUint32LE (b : MonchBuffer) (offset count : Int) : Except BufferError (List Nat) :=
  if b.byteCapacity < offset + count * 4 then .error .overread
  else if offset < 0 then .error .underread
  else .ok (readEach 4 dec32LE b.typedArray offset.toNat count.toNat)

/-- readUint64BE(offset, count). -/
def readUint64BE (b : MonchBuffer) (offset count : Int) : Except BufferError (List Nat) :=
  if b.byteCapacity < offset + count * 8 then .error .overread
  else if offset < 0 then .error .underread
  else .ok (readEach 8 dec64BE b.typedArray offset.toNat count.toNat)

/-- readUint64LE(offset, count). -/
def readUint64LE (b : MonchBuffer) (offset count : Int) : Except BufferError (List Nat) :=
  if b.byteCapacity < offset + count * 8 then .error .overread
  else if offset < 0 then .error .underread
  else .ok (readEach 8 dec64LE b.typedArray offset.toNat count.toNat)

/-- seekByte(offset, relative). -/
def seekByte (b : MonchBuffer) (offset : Int) (relative : Bool) : MonchBuffer :=
  if relative then { b with byteOffset := b.byteOffset + offset }
  else { b with byteOffset := offset }

/-- seekBit(offset, relative). -/
def seekBit (b : MonchBuffer) (offset : Int) (relative : Bool) : MonchBuffer :=
  if relative then { b with bitOffset := b.bitOffset + offset }
  else { b with bitOffset := offset }

/-- The uniform body of the "next" read family: the offset-addressed read has
already been evaluated at the byte cursor; on success seekByte(k, true)
advances the cursor, while a thrown error propagates before the seek runs,
leaving the state untouched. -/
def thenSeek {α : Type} (p : Except BufferError α) (b : MonchBuffer) (k : Int) :
    Except BufferError α × MonchBuffer :=
  match p with
  | .error e => (.error e, b)
  | .ok t => (.ok t, seekByte b k true)

/-- The uniform body of the "next" write family: the offset-addressed write
(returning its result and post-state) has already been evaluated at the byte
cursor; on success seekByte(k, true) advances the cursor, while a thrown
error propagates before the seek runs, leaving the state as the inner write
left it. -/
def thenSeekW (p : Except BufferError Unit × MonchBuffer) (k : Int) :
    Except BufferError Unit × MonchBuffer :=
  match p with
  | (.error e, b1) => (.error e, b1)
  | (.ok _, b1) => (.ok (), seekByte b1 k true)

/-- readByteNext(): read at the byte cursor, then seekByte(1, true). -/
def readByteNext (b : MonchBuffer) : Except BufferError Nat × MonchBuffer :=
  thenSeek (readByte b b.byteOffset) b 1

/-- readBytesNext(count). -/
def readBytesNext (b : MonchBuffer) (count : Int) : Except BufferError (List Nat) × MonchBuffer :=
  thenSeek (readBytes b b.byteOffset count) b count

/-- readUint16BENext(count): read at the byte cursor, then seekByte(count*2, true). -/
def readUint16BENext (b : MonchBuffer) (count : Int) : Except BufferError (List Nat) × MonchBuffer :=
  thenSeek (readUint16BE b b.byteOffset count) b (count * 2)

/-- readUint16LENext(count). -/
def readUint16LENext (b : MonchBuffer) (count : Int) : Except BufferError (List Nat) × MonchBuffer :=
  thenSeek (readUint16LE b b.byteOffset count) b (count * 2)

/-- readUint32BENext(count). -/
def readUint32BENext (b : MonchBuffer) (count : Int) : Except BufferError (List Nat) × MonchBuffer :=
  thenSeek (readUint32BE b b.byteOffset count) b (count * 4)

/-- readUint32LENext(count). -/
def readUint32LENext (b : MonchBuffer) (count : Int) : Except BufferError (List Nat) × MonchBuffer :=
  thenSeek (readUint32LE b b.byteOffset count) b (count * 4)

/-- readUint64BENext(count). -/
def readUint64BENext (b : MonchBuffer) (count : Int) : Except BufferError (List Nat) × MonchBuffer :=
  thenSeek (readUint64BE b b.byteOffset count) b (count * 8)

/-- readUint64LENext(count). -/
def readUint64LENext (b : MonchBuffer) (count : Int) : Except BufferError (List Nat) × MonchBuffer :=
  thenSeek (readUint64LE b b.byteOffset count) b (count * 8)

/-- writeUint16BE(offset, data): overwrite/underwrite checks on the span
offset + data.length * 2, then the per-element store loop. -/
def writeUint16BE (b : MonchBuffer) (offset : Int) (data : List Nat) :
    Except BufferError Unit × MonchBuffer :=
  if b.byteCapacity < offset + (data.length : Int) * 2 then (.error .overwrite, b)
  else if offset < 0 then (.error .underwrite, b)
  else (.ok (), { b with typedArray := writeEach 2 enc16BE b.typedArray offset.toNat data })

/-- writeUint16LE(offset, data). -/
def writeUint16LE (b : MonchBuffer) (offset : Int) (data : List Nat) :
    Except BufferError Unit × MonchBuffer :=
  if b.byteCapacity < offset + (data.length : Int) * 2 then (.error .overwrite, b)
  else if offset < 0 then (.error .underwrite, b)
  else (.ok (), { b with typedArray := writeEach 2 enc16LE b.typedArray offset.toNat data })

/-- writeUint32BE(offset, data). -/
def writeUint32BE (b : MonchBuffer) (offset : Int) (data : List Nat) :
    Except BufferError Unit × MonchBuffer :=
  if b.byteCapacity < offset + (data.length : Int) * 4 then (.error .overwrite, b)
  else if offset < 0 then (.error .underwrite, b)
  else (.ok (), { b with typedArray := writeEach 4 enc32BE b.typedArray offset.toNat data })

/-- writeUint32LE(offset, data). -/
def writeUint32LE (b : MonchBuffer) (offset : Int) (data : List Nat) :
    Except BufferError Unit × MonchBuffer :=
  if b.byteCapacity < offset + (data.length : Int) * 4 then (.error .overwrite, b)
  else if offset < 0 then (.error .underwrite, b)
  else (.ok (), { b with typedArray := writeEach 4 enc32LE b.typedArray offset.toNat data })

/-- writeUint64BE(offset, data): each stored byte passes through
Number(bigint) (see jsNumber) before the Uint8Array assignment. -/
def writeUint64BE (b : MonchBuffer) (offset : Int) (data : List Nat) :
    Except BufferError Unit × MonchBuffer :=
  if b.byteCapacity < offset + (data.length : Int) * 8 then (.error .overwrite, b)
  else if offset < 0 then (.error .underwrite, b)
  else (.ok (), { b with typedArray := writeEach 8 enc64BE b.typedArray offset.toNat data })

/-- writeUint64LE(offset, data). -/
def writeUint64LE (b : MonchBuffer) (offset : Int) (data : List Nat) :
    Except BufferError Unit × MonchBuffer :=
  if b.byteCapacity < offset + (data.length : Int) * 8 then (.error .overwrite, b)
  else if offset < 0 then (.error .underwrite, b)
  else (.ok (), { b with typedArray := writeEach 8 enc64LE b.typedArray offset.toNat data })

/-- writeBytes(offset, data): bounds checks, then typedArray.set(data, offset),
an element-by-element copy of data into the store at offset. -/
def writeBytes (b : MonchBuffer) (offset : Int) (data : List Nat) :
    Except BufferError Unit × MonchBuffer :=
  if b.byteCapacity < offset + (data.length : Int) then (.error .overwrite, b)
  else if offset < 0 then (.error .underwrite, b)
  else (.ok (), { b with typedArray := storeBytes b.typedArray offset.toNat data })

/-- writeByte(offset, byte): bounds checks on offset + 1, then the single
ToUint8 element assignment. -/
def writeByte (b : MonchBuffer) (offset : Int) (byte : Int) :
    Except BufferError Unit × MonchBuffer :=
  if b.byteCapacity < offset + 1 then (.error .overwrite, b)
  else if offset < 0 then (.error .underwrite, b)
  else (.ok (), { b with typedArray := b.typedArray.set offset.toNat (toUint8 byte) })

/-- writeByteNext(byte): write at the byte cursor, then seekByte(1, true). -/
def writeByteNext (b : MonchBuffer) (byte : Int) : Except BufferError Unit × MonchBuffer :=
  thenSeekW (writeByte b b.byteOffset byte) 1

/-- writeBytesNext(data): write at the byte cursor, then seekByte(data.length, true). -/
def writeBytesNext (b : MonchBuffer) (data : List Nat) : Except BufferError Unit × MonchBuffer :=
  thenSeekW (writeBytes b b.byteOffset data) (data.length : Int)

/-- writeUint16BENext(data). -/
def writeUint16BENext (b : MonchBuffer) (data : List Nat) : Except BufferError Unit × MonchBuffer :=
  thenSeekW (writeUint16BE b b.byteOffset data) ((data.length : Int) * 2)

/-- writeUint16LENext(data). -/
def writeUint16LENext (b : MonchBuffer) (data : List Nat) : Except BufferError Unit × MonchBuffer :=
  thenSeekW (writeUint16LE b b.byteOffset data) ((data.length : Int) * 2)

/-- writeUint32BENext(data). -/
def writeUint32BENext (b : MonchBuffer) (data : List Nat) : Except BufferError Unit × MonchBuffer :=
  thenSeekW (writeUint32BE b b.byteOffset data) ((data.length : Int) * 4)

/-- writeUint32LENext(data). -/
def writeUint32LENext (b : MonchBuffer) (data : List Nat) : Except BufferError Unit × MonchBuffer :=
  thenSeekW (writeUint32LE b b.byteOffset data) ((data.length : Int) * 4)

/-- writeUint64BENext(data). -/
def writeUint64BENext (b : MonchBuffer) (data : List Nat) : Except BufferError Unit × MonchBuffer :=
  thenSeekW (writeUint64BE b b.byteOffset data) ((data.length : Int) * 8)

/-- writeUint64LENext(data). -/
def writeUint64LENext (b : MonchBuffer) (data : List Nat) : Except BufferError Unit × MonchBuffer :=
  thenSeekW (writeUint64LE b b.byteOffset data) ((data.length : Int) * 8)

/-- afterByte(offset?): the branch is the JavaScript truthiness test
if (offset), so an absent offset and an explicit 0 take the same fallback. -/
def afterByte (b : MonchBuffer) (offset : Option Int) : Int :=
  match offset with
  | some v => if v ≠ 0 then b.byteCapacity - v - 1 else b.byteCapacity - b.byteOffset - 1
  | none => b.byteCapacity - b.byteOffset - 1

/-- afterBit(offset?). -/
def afterBit (b : MonchBuffer) (offset : Option Int) : Int :=
  match offset with
  | some v => if v ≠ 0 then b.bitCapacity - v - 1 else b.bitCapacity - b.bitOffset - 1
  | none => b.bitCapacity - b.bitOffset - 1

/-- truncateLeft(amount): invalid-count check, then replace the store with
typedArray.slice(amount, byteCapacity) and refresh. -/
def truncateLeft (b : MonchBuffer) (amount : Int) : Except BufferError Unit × MonchBuffer :=
  if amount < 0 then (.error .invalidByteCount, b)
  else (.ok (), refresh { b with typedArray := jsSlice b.typedArray amount b.byteCapacity })

/-- truncateRight(amount): invalid-count check, then replace the store with
typedArray.slice(0, byteCapacity - amount) and refresh. -/
def truncateRight (b : MonchBuffer) (amount : Int) : Except BufferError Unit × MonchBuffer :=
  if amount < 0 then (.error .invalidByteCount, b)
  else (.ok (), refresh { b with typedArray := jsSlice b.typedArray 0 (b.byteCapacity - amount) })

/-- grow(amount): invalid-count check; then both capacity fields are bumped, a
zero-initialized store of the new byte capacity is allocated, and the old
contents are copied into its low end with temp.set(typedArray). (set would
throw a RangeError if the old store were longer than the new one, which
cannot happen while byteCapacity equals the store length.) -/
def grow (b : MonchBuffer) (amount : Int) : Except BufferError Unit × MonchBuffer :=
  if amount < 0 then (.error .invalidByteCount, b)
  else
    let cap := b.byteCapacity + amount
    let temp := List.replicate cap.toNat 0
    let temp :=
      if b.typedArray.length ≤ temp.length then
        b.typedArray ++ temp.drop b.typedArray.length
      else temp
    (.ok (),
      { b with
        byteCapacity := cap
        bitCapacity := b.bitCapacity + amount * 8
        typedArray := temp })

/-- reset(): empty store, all four scalar fields zeroed. -/
def reset (b : MonchBuffer) : MonchBuffer :=
  { b with
    typedArray := []
    byteOffset := 0
    byteCapacity := 0
    bitOffset := 0
    bitCapacity := 0 }

/-- alignBit(): bitOffset = byteOffset * 8. -/
def alignBit (b : MonchBuffer) : MonchBuffer :=
  { b with bitOffset := b.byteOffset * 8 }

/-- alignByte(): byteOffset = ~~(bitOffset / 8); the double-tilde is a ToInt32
truncation toward zero (Int.tdiv is the truncating division). -/
def alignByte (b : MonchBuffer) : MonchBuffer :=
  { b with byteOffset := toInt32 (Int.tdiv b.bitOffset 8) }

/-- toArray(). -/
def toArray (b : MonchBuffer) : List Nat := b.typedArray

/-- The capacity bookkeeping invariant of the spec: byteCapacity is the store
length and bitCapacity is eight times it. -/
def Inv (b : MonchBuffer) : Prop :=
  b.byteCapacity = (b.typedArray.length : Int) ∧
    b.bitCapacity = (b.typedArray.length : Int) * 8

instance (b : MonchBuffer) : Decidable (Inv b) := by
  unfold Inv
  infer_instance

/-- A call outcome advances the byte cursor by exactly k on success and
leaves it unchanged on failure (relative to the entry state b). -/
def AdvancesBy {α : Type} (p : Except BufferError α × MonchBuffer)
    (b : MonchBuffer) (k : Int) : Prop :=
  (p.1.isOk = true → p.2.byteOffset = b.byteOffset + k) ∧
    ∀ e, p.1 = .error e → p.2.byteOffset = b.byteOffset

/-- A call outcome leaves the whole state (store, capacities and both
cursors) exactly as it was on failure. -/
def UnchangedOnError {α : Type} (p : Except BufferError α × MonchBuffer)
    (b : MonchBuffer) : Prop :=
  ∀ e, p.1 = .error e → p.2 = b

end MonchBuffer

instance {ε α : Type} [DecidableEq ε] [DecidableEq α] : DecidableEq (Except ε α)
  | .error e1, .error e2 =>
    if h : e1 = e2 then .isTrue (by rw [h]) else .isFalse (by simp [h])
  | .error _, .ok _ => .isFalse (by simp)
  | .ok _, .error _ => .isFalse (by simp)
  | .ok a1, .ok a2 =>
    if h : a1 = a2 then .isTrue (by rw [h]) else .isFalse (by simp [h])

/-! ### Basic facts about the store primitives -/

theorem jsGet_set_ne (l : List Nat) (v : Nat) :
    ∀ i j, i ≠ j → jsGet (l.set i v) j = jsGet l j := by
  induction l with
  | nil => intro i j _; cases i <;> rfl
  | cons x xs ih =>
    intro i j hne
    cases i with
    | zero => cases j with
      | zero => exact absurd rfl hne
      | succ j => rfl
    | succ i => cases j with
      | zero => rfl
      | succ j => exact ih i j (by omega)

theorem jsGet_set_self (l : List Nat) (v : Nat) :
    ∀ i, i < l.length → jsGet (l.set i v) i = v := by
  induction l with
  | nil => intro i h; simp at h
  | cons x xs ih =>
    intro i h
    cases i with
    | zero => rfl
    | succ i => exact ih i (by simpa using h)

theorem length_storeBytes (bs : List Nat) :
    ∀ store off, (storeBytes store off bs).length = store.length := by
  induction bs with
  | nil => intro store off; rfl
  | cons v rest ih =>
    intro store off
    simp only [storeBytes, ih, List.length_set]

theorem jsGet_storeBytes_lt (bs : List Nat) :
    ∀ store off j, j < off → jsGet (storeBytes store off bs) j = jsGet store j := by
  induction bs with
  | nil => intro store off j _; rfl
  | cons v rest ih =>
    intro store off j hj
    simp only [storeBytes]
    rw [ih _ _ _ (by omega), jsGet_set_ne _ _ _ _ (by omega)]

theorem length_writeEach (w : Nat) (enc : Nat → List Nat) (data : List Nat) :
    ∀ store off, (writeEach w enc store off data).length = store.length := by
  induction data with
  | nil => intro store off; rfl
  | cons v rest ih =>
    intro store off
    simp only [writeEach, ih, length_storeBytes]

theorem jsGet_writeEach_lt (w : Nat) (enc : Nat → List Nat) (data : List Nat) :
    ∀ store off j, j < off →
      jsGet (writeEach w enc store off data) j = jsGet store j := by
  induction data with
  | nil => intro store off j _; rfl
  | cons v rest ih =>
    intro store off j hj
    simp only [writeEach]
    rw [ih _ _ _ (by omega), jsGet_storeBytes_lt _ _ _ _ hj]

/-- Composing a low byte with a shifted high part: the bit-or is an addition
because the summands occupy disjoint bit ranges. -/
theorem lor_shiftLeft_eq_add (a b : Nat) (hb : b < 256) :
    b ||| (a <<< 8) = a * 256 + b := by
  have hb2 : b < 2 ^ 8 := by omega
  have h := Nat.mul_add_lt_is_or hb2 a
  rw [Nat.shiftLeft_eq, Nat.or_comm, Nat.mul_comm a (2 ^ 8), ← h]

/-- jsGet stays below 256 on a store whose bytes are below 256. -/
theorem jsGet_lt_256 (l : List Nat) (h : ∀ x ∈ l, x < 256) :
    ∀ j, jsGet l j < 256 := by
  induction l with
  | nil => intro j; cases j <;> simp [jsGet]
  | cons x xs ih =>
    intro j
    cases j with
    | zero => exact h x (by simp)
    | succ j => exact ih (fun y hy => h y (by simp [hy])) j

/-- ToInt32 is the identity on the signed 32-bit range. -/
theorem toInt32_eq_self (x : Int) (h1 : -(2 ^ 31) ≤ x) (h2 : x < 2 ^ 31) :
    toInt32 x = x := by
  simp only [toInt32]
  split <;> omega

open MonchBuffer

/-! ### Frame and bookkeeping lemmas, one per operation -/

theorem frame_writeByte (b : MonchBuffer) (off v : Int) :
    UnchangedOnError (writeByte b off v) b := by
  intro e h
  unfold writeByte at h ⊢
  split_ifs at h ⊢ <;> rfl

theorem frame_writeBytes (b : MonchBuffer) (off : Int) (d : List Nat) :
    UnchangedOnError (writeBytes b off d) b := by
  intro e h
  unfold writeBytes at h ⊢
  split_ifs at h ⊢ <;> rfl

theorem frame_writeUint16BE (b : MonchBuffer) (off : Int) (d : List Nat) :
    UnchangedOnError (writeUint16BE b off d) b := by
  intro e h
  unfold writeUint16BE at h ⊢
  split_ifs at h ⊢ <;> rfl

theorem frame_writeUint16LE (b : MonchBuffer) (off : Int) (d : List Nat) :
    UnchangedOnError (writeUint16LE b off d) b := by
  intro e h
  unfold writeUint16LE at h ⊢
  split_ifs at h ⊢ <;> rfl

theorem frame_writeUint32BE (b : MonchBuffer) (off : Int) (d : List Nat) :
    UnchangedOnError (writeUint32BE b off d) b := by
  intro e h
  unfold writeUint32BE at h ⊢
  split_ifs at h ⊢ <;> rfl

theorem frame_writeUint32LE (b : MonchBuffer) (off : Int) (d : List Nat) :
    UnchangedOnError (writeUint32LE b off d) b := by
  intro e h
  unfold writeUint32LE at h ⊢
  split_ifs at h ⊢ <;> rfl

theorem frame_writeUint64BE (b : MonchBuffer) (off : Int) (d : List Nat) :
    UnchangedOnError (writeUint64BE b off d) b := by
  intro e h
  unfold writeUint64BE at h ⊢
  split_ifs at h ⊢ <;> rfl

theorem frame_writeUint64LE (b : MonchBuffer) (off : Int) (d : List Nat) :
    UnchangedOnError (writeUint64LE b off d) b := by
  intro e h
  unfold writeUint64LE at h ⊢
  split_ifs at h ⊢ <;> rfl

theorem frame_grow (b : MonchBuffer) (amt : Int) :
    UnchangedOnError (grow b amt) b := by
  intro e h
  unfold grow at h ⊢
  split_ifs at h ⊢
  rfl

theorem frame_truncateLeft (b : MonchBuffer) (amt : Int) :
    UnchangedOnError (truncateLeft b amt) b := by
  intro e h
  unfold truncateLeft at h ⊢
  split_ifs at h ⊢
  rfl

theorem frame_truncateRight (b : MonchBuffer) (amt : Int) :
    UnchangedOnError (truncateRight b amt) b := by
  intro e h
  unfold truncateRight at h ⊢
  split_ifs at h ⊢
  rfl

theorem byteOffset_writeByte (b : MonchBuffer) (off v : Int) :
    (writeByte b off v).2.byteOffset = b.byteOffset := by
  unfold writeByte; split_ifs <;> rfl

theorem byteOffset_writeBytes (b : MonchBuffer) (off : Int) (d : List Nat) :
    (writeBytes b off d).2.byteOffset = b.byteOffset := by
  unfold writeBytes; split_ifs <;> rfl

theorem byteOffset_writeUint16BE (b : MonchBuffer) (off : Int) (d : List Nat) :
    (writeUint16BE b off d).2.byteOffset = b.byteOffset := by
  unfold writeUint16BE; split_ifs <;> rfl

theorem byteOffset_writeUint16LE (b : MonchBuffer) (off : Int) (d : List Nat) :
    (writeUint16LE b off d).2.byteOffset = b.byteOffset := by
  unfold writeUint16LE; split_ifs <;> rfl

theorem byteOffset_writeUint32BE (b : MonchBuffer) (off : Int) (d : List Nat) :
    (writeUint32BE b off d).2.byteOffset = b.byteOffset := by
  unfold writeUint32BE; split_ifs <;> rfl

theorem byteOffset_writeUint32LE (b : MonchBuffer) (off : Int) (d : List Nat) :
    (writeUint32LE b off d).2.byteOffset = b.byteOffset := by
  unfold writeUint32LE; split_ifs <;> rfl

theorem byteOffset_writeUint64BE (b : MonchBuffer) (off : Int) (d : List Nat) :
    (writeUint64BE b off d).2.byteOffset = b.byteOffset := by
  unfold writeUint64BE; split_ifs <;> rfl

theorem byteOffset_writeUint64LE (b : MonchBuffer) (off : Int) (d : List Nat) :
    (writeUint64LE b off d).2.byteOffset = b.byteOffset := by
  unfold writeUint64LE; split_ifs <;> rfl

theorem advancesBy_thenSeek {α : Type} (p : Except BufferError α) (b : MonchBuffer) (k : Int) :
    AdvancesBy (thenSeek p b k) b k := by
  constructor
  · intro h
    cases p with
    | error e => simp [thenSeek, Except.isOk, Except.toBool] at h
    | ok t => simp [thenSeek, seekByte]
  · intro e h
    cases p with
    | error e1 => rfl
    | ok t => simp [thenSeek] at h

theorem unchangedOnError_thenSeek {α : Type} (p : Except BufferError α)
    (b : MonchBuffer) (k : Int) : UnchangedOnError (thenSeek p b k) b := by
  intro e h
  cases p with
  | error e1 => rfl
  | ok t => simp [thenSeek] at h

theorem advancesBy_thenSeekW (p : Except BufferError Unit × MonchBuffer)
    (b : MonchBuffer) (k : Int) (hoff : p.2.byteOffset = b.byteOffset) :
    AdvancesBy (thenSeekW p k) b k := by
  obtain ⟨res, b1⟩ := p
  have hoff2 : b1.byteOffset = b.byteOffset := hoff
  constructor
  · intro h
    cases res with
    | error e => simp [thenSeekW, Except.isOk, Except.toBool] at h
    | ok u => simp [thenSeekW, seekByte, hoff2]
  · intro e h
    cases res with
    | error e1 => exact hoff2
    | ok u => simp [thenSeekW] at h

theorem unchangedOnError_thenSeekW (p : Except BufferError Unit × MonchBuffer)
    (b : MonchBuffer) (k : Int) (hframe : UnchangedOnError p b) :
    UnchangedOnError (thenSeekW p k) b := by
  intro e h
  obtain ⟨res, b1⟩ := p
  cases res with
  | error e1 => exact hframe e1 rfl
  | ok u => simp [thenSeekW] at h

theorem Inv_refresh (b : MonchBuffer) : Inv (refresh b) := ⟨rfl, rfl⟩

theorem Inv_reset (b : MonchBuffer) : Inv (reset b) := ⟨rfl, rfl⟩

theorem Inv_store (b : MonchBuffer) (s : List Nat)
    (hlen : s.length = b.typedArray.length) (h : Inv b) :
    Inv { b with typedArray := s } := by
  obtain ⟨h1, h2⟩ := h
  constructor
  · show b.byteCapacity = (s.length : Int)
    rw [hlen]; exact h1
  · show b.bitCapacity = (s.length : Int) * 8
    rw [hlen]; exact h2

theorem Inv_seekByte (b : MonchBuffer) (o : Int) (r : Bool) (h : Inv b) :
    Inv (seekByte b o r) := by
  unfold seekByte; split_ifs <;> exact h

theorem Inv_writeByte (b : MonchBuffer) (off v : Int) (h : Inv b) :
    Inv (writeByte b off v).2 := by
  unfold writeByte
  split_ifs <;> first | exact h | exact Inv_store _ _ (List.length_set _ _ _) h

theorem Inv_writeBytes (b : MonchBuffer) (off : Int) (d : List Nat) (h : Inv b) :
    Inv (writeBytes b off d).2 := by
  unfold writeBytes
  split_ifs <;> first | exact h | exact Inv_store _ _ (length_storeBytes _ _ _) h

theorem Inv_writeUint16BE (b : MonchBuffer) (off : Int) (d : List Nat) (h : Inv b) :
    Inv (writeUint16BE b off d).2 := by
  unfold writeUint16BE
  split_ifs <;> first | exact h | exact Inv_store _ _ (length_writeEach _ _ _ _ _) h

theorem Inv_writeUint16LE (b : MonchBuffer) (off : Int) (d : List Nat) (h : Inv b) :
    Inv (writeUint16LE b off d).2 := by
  unfold writeUint16LE
  split_ifs <;> first | exact h | exact Inv_store _ _ (length_writeEach _ _ _ _ _) h

theorem Inv_writeUint32BE (b : MonchBuffer) (off : Int) (d : List Nat) (h : Inv b) :
    Inv (writeUint32BE b off d).2 := by
  unfold writeUint32BE
  split_ifs <;> first | exact h | exact Inv_store _ _ (length_writeEach _ _ _ _ _) h

theorem Inv_writeUint32LE (b : MonchBuffer) (off : Int) (d : List Nat) (h : Inv b) :
    Inv (writeUint32LE b off d).2 := by
  unfold writeUint32LE
  split_ifs <;> first | exact h | exact Inv_store _ _ (length_writeEach _ _ _ _ _) h

theorem Inv_writeUint64BE (b : MonchBuffer) (off : Int) (d : List Nat) (h : Inv b) :
    Inv (writeUint64BE b off d).2 := by
  unfold writeUint64BE
  split_ifs <;> first | exact h | exact Inv_store _ _ (length_writeEach _ _ _ _ _) h

theorem Inv_writeUint64LE (b : MonchBuffer) (off : Int) (d : List Nat) (h : Inv b) :
    Inv (writeUint64LE b off d).2 := by
  unfold writeUint64LE
  split_ifs <;> first | exact h | exact Inv_store _ _ (length_writeEach _ _ _ _ _) h

theorem Inv_thenSeekW (p : Except BufferError Unit × MonchBuffer) (k : Int)
    (h : Inv p.2) : Inv (thenSeekW p k).2 := by
  obtain ⟨res, b1⟩ := p
  cases res with
  | error e1 => exact h
  | ok u => exact Inv_seekByte _ _ _ h

theorem Inv_grow (b : MonchBuffer) (amt : Int) (h : Inv b) : Inv (grow b amt).2 := by
  obtain ⟨hcap, hbit⟩ := h
  unfold grow
  simp only [List.length_replicate]
  split_ifs with h1 h2
  · exact ⟨hcap, hbit⟩
  · constructor
    · show b.byteCapacity + amt = _
      simp only [List.length_append, List.length_drop, List.length_replicate]
      omega
    · show b.bitCapacity + amt * 8 = _
      simp only [List.length_append, List.length_drop, List.length_replicate]
      omega
  · exact absurd (by omega) h2

theorem Inv_truncateLeft (b : MonchBuffer) (amt : Int) (h : Inv b) :
    Inv (truncateLeft b amt).2 := by
  unfold truncateLeft
  split_ifs <;> first | exact h | exact Inv_refresh _

theorem Inv_truncateRight (b : MonchBuffer) (amt : Int) (h : Inv b) :
    Inv (truncateRight b amt).2 := by
  unfold truncateRight
  split_ifs <;> first | exact h | exact Inv_refresh _

theorem Inv_new (slices : List (List Int)) : Inv (new slices) := Inv_refresh _

/-! ### The claims -/

/-- C1: the spec's round-trip property (write then read returns the written
values at every supported width) fails on the code for the 64-bit width: the
source converts each BigInt shift result with Number, which rounds to the
nearest IEEE-754 double, so writing 2^53 + 1 = 9007199254740993 into an
8-byte buffer stores a low byte of 0x00 instead of 0x01 and reading back
returns 2^53. This theorem evaluates the embedded code at that failing
input. -/
theorem spec_uint64_roundtrip_failure :
    (writeUint64BE (new [List.replicate 8 0]) 0 [9007199254740993]).1 = .ok () ∧
    readUint64BE ((writeUint64BE (new [List.replicate 8 0]) 0 [9007199254740993]).2) 0 1 =
      .ok [9007199254740992] ∧
    (9007199254740992 : Nat) ≠ 9007199254740993 := by
  exact ⟨by decide, by decide, by decide⟩

/-- C3 counterexample: the claim says every negative offset reports the
underread condition, but the overread check runs first, so a negative offset
whose span also exceeds the capacity reports overread: on a 4-byte buffer,
readBytes(-1, 6) fails with overread, not underread. -/
theorem spec_negative_offset_counterexample :
    readBytes (new [[0, 0, 0, 0]]) (-1) 6 = .error .overread ∧
    BufferError.overread ≠ BufferError.underread := by
  exact ⟨by decide, by decide⟩

/-- C3 (amended): a read fails with overread when offset + count (times the
element width) exceeds byteCapacity; it fails with underread when the offset
is negative and the span check passes (the overread check is performed first
and takes precedence). Shown for readBytes and for readUint64BE, whose span
is count * 8. -/
theorem spec_read_error_contract (b : MonchBuffer) (offset count : Int) :
    (b.byteCapacity < offset + count → readBytes b offset count = .error .overread) ∧
    (offset < 0 → offset + count ≤ b.byteCapacity →
      readBytes b offset count = .error .underread) ∧
    (b.byteCapacity < offset + count * 8 →
      readUint64BE b offset count = .error .overread) ∧
    (offset < 0 → offset + count * 8 ≤ b.byteCapacity →
      readUint64BE b offset count = .error .underread) := by
  unfold readBytes readUint64BE
  refine ⟨fun h => ?_, fun h1 h2 => ?_, fun h => ?_, fun h1 h2 => ?_⟩ <;>
    split_ifs <;> first | rfl | omega

theorem spec_read_error_contract_witness :
    ((4 : Int) < 0 + 5 ∧ readBytes (new [[0, 0, 0, 0]]) 0 5 = .error .overread) ∧
    ((-1 : Int) < 0 ∧ (-1 : Int) + 1 ≤ 4 ∧
      readBytes (new [[0, 0, 0, 0]]) (-1) 1 = .error .underread) := by
  refine ⟨⟨by decide, ?_⟩, by decide, by decide, ?_⟩
  · exact (spec_read_error_contract (new [[0, 0, 0, 0]]) 0 5).1 (by decide)
  · exact (spec_read_error_contract (new [[0, 0, 0, 0]]) (-1) 1).2.1 (by decide) (by decide)

/-- C8 counterexample: with the bit cursor at -9 (reachable via seekBit),
alignByte sets the byte cursor to -1 (truncation toward zero), not to
floor(-9 / 8) = -2 as the claim states. -/
theorem spec_alignByte_counterexample :
    (alignByte (seekBit (new [[]]) (-9) false)).byteOffset = -1 ∧
    Int.fdiv (-9) 8 = -2 ∧ (-1 : Int) ≠ -2 := by
  exact ⟨by decide, by decide, by decide⟩

/-- C8 (amended): alignBit sets the bit cursor to byteOffset * 8; alignByte
sets the byte cursor to the truncation toward zero of bitOffset / 8 (the
double-tilde), which agrees with floor(bitOffset / 8) for nonnegative bit
cursors but not for negative ones. Stated for every bit-cursor value
reachable via seekBit that is small enough for the 32-bit truncation to be
the identity. -/
theorem spec_align (b : MonchBuffer) (v : Int) (hv : v.natAbs < 2 ^ 34) :
    (alignBit b).bitOffset = b.byteOffset * 8 ∧
    (alignByte (seekBit b v false)).byteOffset = Int.tdiv v 8 ∧
    (0 ≤ v → (alignByte (seekBit b v false)).byteOffset = Int.fdiv v 8) := by
  have habs : (Int.tdiv v 8).natAbs = v.natAbs / 8 := Int.natAbs_tdiv v 8
  have hself : toInt32 (Int.tdiv v 8) = Int.tdiv v 8 := by
    refine toInt32_eq_self _ ?_ ?_ <;> omega
  refine ⟨rfl, ?_, fun h0 => ?_⟩
  · simp only [alignByte, seekBit, Bool.false_eq_true, if_false]
    exact hself
  · simp only [alignByte, seekBit, Bool.false_eq_true, if_false]
    rw [hself, Int.fdiv_eq_tdiv h0 (by omega)]

theorem spec_align_witness :
    (Int.natAbs 12 < 2 ^ 34 ∧ (alignBit (new [[0, 0]])).bitOffset = 0 ∧
      (alignByte (seekBit (new [[0, 0]]) 12 false)).byteOffset = Int.tdiv 12 8) ∧
    ((0 : Int) ≤ 12 ∧ (alignByte (seekBit (new [[0, 0]]) 12 false)).byteOffset = Int.fdiv 12 8) := by
  have h := spec_align (new [[0, 0]]) 12 (by decide)
  exact ⟨⟨by decide, h.1, h.2.1⟩, by decide, h.2.2 (by decide)⟩

/-- C9: afterByte returns byteCapacity - offset - 1 when a nonzero offset is
supplied, and byteCapacity - byteOffset - 1 when the offset is absent or
equals 0 (the truthiness test makes an explicit 0 fall back to the cursor);
afterBit behaves the same way over bitCapacity and the bit cursor. -/
theorem spec_after_truthiness (b : MonchBuffer) (o : Int) :
    (o ≠ 0 → afterByte b (some o) = b.byteCapacity - o - 1) ∧
    afterByte b (some 0) = b.byteCapacity - b.byteOffset - 1 ∧
    afterByte b none = b.byteCapacity - b.byteOffset - 1 ∧
    (o ≠ 0 → afterBit b (some o) = b.bitCapacity - o - 1) ∧
    afterBit b (some 0) = b.bitCapacity - b.bitOffset - 1 ∧
    afterBit b none = b.bitCapacity - b.bitOffset - 1 := by
  refine ⟨fun h => ?_, ?_, rfl, fun h => ?_, ?_, rfl⟩ <;>
    simp [afterByte, afterBit]
  · intro h0; exact absurd h0 h
  · intro h0; exact absurd h0 h

theorem spec_after_truthiness_witness :
    ((5 : Int) ≠ 0 ∧ afterByte (new [[7, 7, 7]]) (some 5) = -3) ∧
    afterByte (new [[7, 7, 7]]) (some 0) = 2 := by
  have h := spec_after_truthiness (new [[7, 7, 7]]) 5
  exact ⟨⟨by decide, (h.1 (by decide)).trans (by decide)⟩, h.2.1.trans (by decide)⟩

/-- C2: on a buffer whose capacity matches its store of in-range bytes, a
16-bit big-endian read at an in-bounds offset composes the first
(lowest-address) byte as most significant, and the little-endian read
composes the first byte as least significant. The spec's concrete instance
(store beginning 0x01, 0x00 giving 0x0100 and 0x0001) is the witness. -/
theorem spec_endianness_composition (b : MonchBuffer) (o : Nat)
    (hcap : b.byteCapacity = (b.typedArray.length : Int))
    (hbytes : ∀ x ∈ b.typedArray, x < 256)
    (ho : o + 2 ≤ b.typedArray.length) :
    readUint16BE b (o : Int) 1 =
      .ok [jsGet b.typedArray o * 256 + jsGet b.typedArray (o + 1)] ∧
    readUint16LE b (o : Int) 1 =
      .ok [jsGet b.typedArray o + jsGet b.typedArray (o + 1) * 256] := by
  have h0 := jsGet_lt_256 b.typedArray hbytes o
  have h1 := jsGet_lt_256 b.typedArray hbytes (o + 1)
  constructor
  · unfold readUint16BE
    rw [if_neg (by rw [hcap]; omega), if_neg (by omega)]
    refine congrArg Except.ok ?_
    simp only [readEach, takeWindow, dec16BE, jsGet, Int.toNat_ofNat]
    rw [lor_shiftLeft_eq_add _ _ h1, Nat.mod_eq_of_lt (by omega)]
  · unfold readUint16LE
    rw [if_neg (by rw [hcap]; omega), if_neg (by omega)]
    refine congrArg Except.ok ?_
    simp only [readEach, takeWindow, dec16LE, jsGet, Int.toNat_ofNat]
    rw [lor_shiftLeft_eq_add _ _ h0, Nat.mod_eq_of_lt (by omega), Nat.add_comm]

theorem spec_endianness_composition_witness :
    ((new [[1, 0, 0, 0, 0, 0, 0, 0]]).byteCapacity =
        ((new [[1, 0, 0, 0, 0, 0, 0, 0]]).typedArray.length : Int) ∧
      (∀ x ∈ (new [[1, 0, 0, 0, 0, 0, 0, 0]]).typedArray, x < 256) ∧
      0 + 2 ≤ (new [[1, 0, 0, 0, 0, 0, 0, 0]]).typedArray.length) ∧
    readUint16BE (new [[1, 0, 0, 0, 0, 0, 0, 0]]) 0 1 = .ok [0x0100] ∧
    readUint16LE (new [[1, 0, 0, 0, 0, 0, 0, 0]]) 0 1 = .ok [0x0001] := by
  have h := spec_endianness_composition (new [[1, 0, 0, 0, 0, 0, 0, 0]]) 0
    (by decide) (by decide) (by decide)
  exact ⟨⟨by decide, by decide, by decide⟩, h.1.trans (by decide), h.2.trans (by decide)⟩

/-- C10: for an in-bounds offset, writeByte succeeds for every integer value
and stores the value reduced modulo 2^8 (ToUint8 wrapping, never an error);
a 16-bit big-endian write likewise stores the two decomposed bytes of its
value modulo 2^8. -/
theorem spec_writeByte_wrap (b : MonchBuffer) (off v : Int) (w : Nat)
    (hcap : b.byteCapacity = (b.typedArray.length : Int)) (h0 : 0 ≤ off) :
    (off + 1 ≤ b.byteCapacity →
      (writeByte b off v).1 = .ok () ∧
      jsGet (writeByte b off v).2.typedArray off.toNat = (v % 256).toNat) ∧
    (off + 2 ≤ b.byteCapacity →
      (writeUint16BE b off [w]).1 = .ok () ∧
      jsGet (writeUint16BE b off [w]).2.typedArray off.toNat = w / 2 ^ 8 % 2 ^ 8 ∧
      jsGet (writeUint16BE b off [w]).2.typedArray (off.toNat + 1) = w % 2 ^ 8) := by
  constructor
  · intro hb
    unfold writeByte
    rw [if_neg (by omega), if_neg (by omega)]
    refine ⟨rfl, ?_⟩
    exact jsGet_set_self _ _ _ (by rw [hcap] at hb; omega)
  · intro hb
    rw [hcap] at hb
    unfold writeUint16BE
    rw [if_neg (by rw [hcap]; simp only [List.length_cons, List.length_nil]; omega),
      if_neg (by omega)]
    refine ⟨rfl, ?_, ?_⟩ <;> simp only [writeEach, storeBytes, enc16BE]
    · rw [jsGet_set_ne _ _ _ _ (by omega),
        jsGet_set_self _ _ _ (by omega),
        Nat.shiftRight_eq_div_pow]
      omega
    · rw [jsGet_set_self _ _ _ (by simp only [List.length_set]; omega)]
      omega

theorem spec_writeByte_wrap_witness :
    ((new [[0, 0]]).byteCapacity = ((new [[0, 0]]).typedArray.length : Int) ∧
      (0 : Int) ≤ 0 ∧ (0 : Int) + 1 ≤ (new [[0, 0]]).byteCapacity) ∧
    (writeByte (new [[0, 0]]) 0 (-1)).1 = .ok () ∧
    jsGet (writeByte (new [[0, 0]]) 0 (-1)).2.typedArray 0 = 255 := by
  have h := (spec_writeByte_wrap (new [[0, 0]]) 0 (-1) 0 (by decide) (by decide)).1 (by decide)
  exact ⟨⟨by decide, by decide, by decide⟩, h.1, h.2.trans (by decide)⟩

/-- Dropping from a replicated list leaves a replicated list. -/
theorem drop_replicate {α : Type} (a : α) :
    ∀ n m, (List.replicate n a).drop m = List.replicate (n - m) a := by
  intro n
  induction n with
  | zero => intro m; simp
  | succ n ih =>
    intro m
    cases m with
    | zero => simp
    | succ m =>
      rw [List.replicate_succ, List.drop_succ_cons, ih m, Nat.succ_sub_succ]

/-- C4: for n >= 0, grow(n) succeeds, increases byteCapacity by exactly n,
preserves the existing bytes as the low prefix of the new store, zero-fills
the n new high bytes, and re-establishes bitCapacity = byteCapacity * 8
(which the invariant supplies beforehand); for n < 0 grow fails with the
invalid-count condition and changes nothing. -/
theorem spec_grow (b : MonchBuffer) (n : Int) (hInv : Inv b) :
    (0 ≤ n →
      (grow b n).1 = .ok () ∧
      (grow b n).2.byteCapacity = b.byteCapacity + n ∧
      (grow b n).2.typedArray.take b.typedArray.length = b.typedArray ∧
      (grow b n).2.typedArray.drop b.typedArray.length = List.replicate n.toNat 0 ∧
      (grow b n).2.bitCapacity = (grow b n).2.byteCapacity * 8) ∧
    (n < 0 → grow b n = (.error .invalidByteCount, b)) := by
  obtain ⟨hcap, hbit⟩ := hInv
  constructor
  · intro h0
    have hgrow : grow b n =
        (.ok (), { b with
          byteCapacity := b.byteCapacity + n
          bitCapacity := b.bitCapacity + n * 8
          typedArray := b.typedArray ++
            List.replicate ((b.byteCapacity + n).toNat - b.typedArray.length) 0 }) := by
      unfold grow
      rw [if_neg (by omega)]
      simp only [List.length_replicate]
      rw [if_pos (by omega), drop_replicate]
    rw [hgrow]
    refine ⟨rfl, rfl, List.take_left _ _, ?_, ?_⟩
    · rw [List.drop_left]
      congr 1
      omega
    · show b.bitCapacity + n * 8 = (b.byteCapacity + n) * 8
      rw [hbit, hcap]
      omega
  · intro hneg
    unfold grow
    rw [if_pos hneg]

theorem spec_grow_witness :
    (Inv (new [[1, 2]]) ∧ (0 : Int) ≤ 3) ∧
    (grow (new [[1, 2]]) 3).1 = .ok () ∧
    (grow (new [[1, 2]]) 3).2.byteCapacity = 5 ∧
    (grow (new [[1, 2]]) 3).2.typedArray = [1, 2, 0, 0, 0] := by
  have h := (spec_grow (new [[1, 2]]) 3 (by decide)).1 (by decide)
  exact ⟨⟨by decide, by decide⟩, h.1, h.2.1.trans (by decide), by decide⟩

/-- C5: every "next"-family read or write that consumes k bytes (count for
the byte family, count times the element width for the integer families)
advances the byte cursor by exactly k on success and leaves it unchanged on
failure. -/
theorem spec_cursor_advance (b : MonchBuffer) (count v : Int) (d : List Nat) :
    AdvancesBy (readByteNext b) b 1 ∧
    AdvancesBy (readBytesNext b count) b count ∧
    AdvancesBy (readUint16BENext b count) b (count * 2) ∧
    AdvancesBy (readUint16LENext b count) b (count * 2) ∧
    AdvancesBy (readUint32BENext b count) b (count * 4) ∧
    AdvancesBy (readUint32LENext b count) b (count * 4) ∧
    AdvancesBy (readUint64BENext b count) b (count * 8) ∧
    AdvancesBy (readUint64LENext b count) b (count * 8) ∧
    AdvancesBy (writeByteNext b v) b 1 ∧
    AdvancesBy (writeBytesNext b d) b (d.length : Int) ∧
    AdvancesBy (writeUint16BENext b d) b ((d.length : Int) * 2) ∧
    AdvancesBy (writeUint16LENext b d) b ((d.length : Int) * 2) ∧
    AdvancesBy (writeUint32BENext b d) b ((d.length : Int) * 4) ∧
    AdvancesBy (writeUint32LENext b d) b ((d.length : Int) * 4) ∧
    AdvancesBy (writeUint64BENext b d) b ((d.length : Int) * 8) ∧
    AdvancesBy (writeUint64LENext b d) b ((d.length : Int) * 8) := by
  exact ⟨advancesBy_thenSeek _ b 1, advancesBy_thenSeek _ b count,
    advancesBy_thenSeek _ b (count * 2), advancesBy_thenSeek _ b (count * 2),
    advancesBy_thenSeek _ b (count * 4), advancesBy_thenSeek _ b (count * 4),
    advancesBy_thenSeek _ b (count * 8), advancesBy_thenSeek _ b (count * 8),
    advancesBy_thenSeekW _ b 1 (byteOffset_writeByte b b.byteOffset v),
    advancesBy_thenSeekW _ b _ (byteOffset_writeBytes b b.byteOffset d),
    advancesBy_thenSeekW _ b _ (byteOffset_writeUint16BE b b.byteOffset d),
    advancesBy_thenSeekW _ b _ (byteOffset_writeUint16LE b b.byteOffset d),
    advancesBy_thenSeekW _ b _ (byteOffset_writeUint32BE b b.byteOffset d),
    advancesBy_thenSeekW _ b _ (byteOffset_writeUint32LE b b.byteOffset d),
    advancesBy_thenSeekW _ b _ (byteOffset_writeUint64BE b b.byteOffset d),
    advancesBy_thenSeekW _ b _ (byteOffset_writeUint64LE b b.byteOffset d)⟩

theorem spec_cursor_advance_witness :
    ((readBytesNext (new [[0, 0, 0, 0]]) 2).1.isOk = true ∧
      (readBytesNext (new [[0, 0, 0, 0]]) 2).2.byteOffset = 2) ∧
    ((readBytesNext (new [[0, 0]]) 5).1 = .error .overread ∧
      (readBytesNext (new [[0, 0]]) 5).2.byteOffset = 0) := by
  have h1 := (spec_cursor_advance (new [[0, 0, 0, 0]]) 2 0 []).2.1
  have h2 := (spec_cursor_advance (new [[0, 0]]) 5 0 []).2.1
  exact ⟨⟨by decide, (h1.1 (by decide)).trans (by decide)⟩,
    ⟨by decide, (h2.2 .overread (by decide)).trans (by decide)⟩⟩

/-- C6: every mutating operation performs its checks before any mutation, so
a call that fails with any error kind leaves the whole buffer state (store,
both capacities, both cursors) exactly as it was. (The offset-addressed
reads never touch the state at all, so they are embedded as pure functions.) -/
theorem spec_strong_exception_safety (b : MonchBuffer) (off v count amt : Int)
    (d : List Nat) :
    UnchangedOnError (writeByte b off v) b ∧
    UnchangedOnError (writeBytes b off d) b ∧
    UnchangedOnError (writeUint16BE b off d) b ∧
    UnchangedOnError (writeUint16LE b off d) b ∧
    UnchangedOnError (writeUint32BE b off d) b ∧
    UnchangedOnError (writeUint32LE b off d) b ∧
    UnchangedOnError (writeUint64BE b off d) b ∧
    UnchangedOnError (writeUint64LE b off d) b ∧
    UnchangedOnError (readByteNext b) b ∧
    UnchangedOnError (readBytesNext b count) b ∧
    UnchangedOnError (readUint16BENext b count) b ∧
    UnchangedOnError (readUint16LENext b count) b ∧
    UnchangedOnError (readUint32BENext b count) b ∧
    UnchangedOnError (readUint32LENext b count) b ∧
    UnchangedOnError (readUint64BENext b count) b ∧
    UnchangedOnError (readUint64LENext b count) b ∧
    UnchangedOnError (writeByteNext b v) b ∧
    UnchangedOnError (writeBytesNext b d) b ∧
    UnchangedOnError (writeUint16BENext b d) b ∧
    UnchangedOnError (writeUint16LENext b d) b ∧
    UnchangedOnError (writeUint32BENext b d) b ∧
    UnchangedOnError (writeUint32LENext b d) b ∧
    UnchangedOnError (writeUint64BENext b d) b ∧
    UnchangedOnError (writeUint64LENext b d) b ∧
    UnchangedOnError (grow b amt) b ∧
    UnchangedOnError (truncateLeft b amt) b ∧
    UnchangedOnError (truncateRight b amt) b := by
  exact ⟨frame_writeByte b off v, frame_writeBytes b off d,
    frame_writeUint16BE b off d, frame_writeUint16LE b off d,
    frame_writeUint32BE b off d, frame_writeUint32LE b off d,
    frame_writeUint64BE b off d, frame_writeUint64LE b off d,
    unchangedOnError_thenSeek _ b _, unchangedOnError_thenSeek _ b _,
    unchangedOnError_thenSeek _ b _, unchangedOnError_thenSeek _ b _,
    unchangedOnError_thenSeek _ b _, unchangedOnError_thenSeek _ b _,
    unchangedOnError_thenSeek _ b _, unchangedOnError_thenSeek _ b _,
    unchangedOnError_thenSeekW _ b _ (frame_writeByte b b.byteOffset v),
    unchangedOnError_thenSeekW _ b _ (frame_writeBytes b b.byteOffset d),
    unchangedOnError_thenSeekW _ b _ (frame_writeUint16BE b b.byteOffset d),
    unchangedOnError_thenSeekW _ b _ (frame_writeUint16LE b b.byteOffset d),
    unchangedOnError_thenSeekW _ b _ (frame_writeUint32BE b b.byteOffset d),
    unchangedOnError_thenSeekW _ b _ (frame_writeUint32LE b b.byteOffset d),
    unchangedOnError_thenSeekW _ b _ (frame_writeUint64BE b b.byteOffset d),
    unchangedOnError_thenSeekW _ b _ (frame_writeUint64LE b b.byteOffset d),
    frame_grow b amt, frame_truncateLeft b amt, frame_truncateRight b amt⟩

theorem spec_strong_exception_safety_witness :
    ((writeBytes (new [[0, 0]]) 1 [1, 2]).1 = .error .overwrite ∧
      (writeBytes (new [[0, 0]]) 1 [1, 2]).2 = new [[0, 0]]) ∧
    ((grow (new [[0, 0]]) (-1)).1 = .error .invalidByteCount ∧
      (grow (new [[0, 0]]) (-1)).2 = new [[0, 0]]) ∧
    ((readBytesNext (new [[0, 0]]) 5).1 = .error .overread ∧
      (readBytesNext (new [[0, 0]]) 5).2 = new [[0, 0]]) := by
  have h := spec_strong_exception_safety (new [[0, 0]]) 1 0 5 (-1) [1, 2]
  exact ⟨⟨by decide, h.2.1 .overwrite (by decide)⟩,
    ⟨by decide, h.2.2.2.2.2.2.2.2.2.2.2.2.2.2.2.2.2.2.2.2.2.2.2.2.1 .invalidByteCount (by decide)⟩,
    ⟨by decide, h.2.2.2.2.2.2.2.2.2.1 .overread (by decide)⟩⟩

/-- C7: immediately after construction, and after every mutating operation
completes from a state satisfying the bookkeeping invariant, byteCapacity
equals the length of the backing store and bitCapacity equals byteCapacity
times 8 (stated as eight times the store length, which is equal). -/
theorem spec_capacity_invariants (slices : List (List Int)) (b : MonchBuffer)
    (hInv : Inv b) (off v amt : Int) (d : List Nat) :
    Inv (new slices) ∧
    Inv (writeByte b off v).2 ∧
    Inv (writeBytes b off d).2 ∧
    Inv (writeUint16BE b off d).2 ∧
    Inv (writeUint16LE b off d).2 ∧
    Inv (writeUint32BE b off d).2 ∧
    Inv (writeUint32LE b off d).2 ∧
    Inv (writeUint64BE b off d).2 ∧
    Inv (writeUint64LE b off d).2 ∧
    Inv (writeByteNext b v).2 ∧
    Inv (writeBytesNext b d).2 ∧
    Inv (writeUint16BENext b d).2 ∧
    Inv (writeUint16LENext b d).2 ∧
    Inv (writeUint32BENext b d).2 ∧
    Inv (writeUint32LENext b d).2 ∧
    Inv (writeUint64BENext b d).2 ∧
    Inv (writeUint64LENext b d).2 ∧
    Inv (grow b amt).2 ∧
    Inv (truncateLeft b amt).2 ∧
    Inv (truncateRight b amt).2 ∧
    Inv (reset b) := by
  exact ⟨Inv_new slices, Inv_writeByte b off v hInv, Inv_writeBytes b off d hInv,
    Inv_writeUint16BE b off d hInv, Inv_writeUint16LE b off d hInv,
    Inv_writeUint32BE b off d hInv, Inv_writeUint32LE b off d hInv,
    Inv_writeUint64BE b off d hInv, Inv_writeUint64LE b off d hInv,
    Inv_thenSeekW _ _ (Inv_writeByte b b.byteOffset v hInv),
    Inv_thenSeekW _ _ (Inv_writeBytes b b.byteOffset d hInv),
    Inv_thenSeekW _ _ (Inv_writeUint16BE b b.byteOffset d hInv),
    Inv_thenSeekW _ _ (Inv_writeUint16LE b b.byteOffset d hInv),
    Inv_thenSeekW _ _ (Inv_writeUint32BE b b.byteOffset d hInv),
    Inv_thenSeekW _ _ (Inv_writeUint32LE b b.byteOffset d hInv),
    Inv_thenSeekW _ _ (Inv_writeUint64BE b b.byteOffset d hInv),
    Inv_thenSeekW _ _ (Inv_writeUint64LE b b.byteOffset d hInv),
    Inv_grow b amt hInv, Inv_truncateLeft b amt hInv,
    Inv_truncateRight b amt hInv, Inv_reset b⟩

theorem spec_capacity_invariants_witness :
    Inv (new [[1, 2, 3]]) ∧
    Inv (grow (new [[1, 2, 3]]) 2).2 ∧
    Inv (truncateLeft (new [[1, 2, 3]]) 1).2 ∧
    Inv (writeUint16BE (new [[1, 2, 3]]) 0 [65535]).2 := by
  have h := spec_capacity_invariants [[1, 2, 3]] (new [[1, 2, 3]]) (by decide) 0 0 2 [65535]
  exact ⟨h.1, h.2.2.2.2.2.2.2.2.2.2.2.2.2.2.2.2.2.1,
    (spec_capacity_invariants [[1, 2, 3]] (new [[1, 2, 3]]) (by decide) 0 0 1
      [65535]).2.2.2.2.2.2.2.2.2.2.2.2.2.2.2.2.2.2.1,
    h.2.2.2.1⟩

end Monch

